import Mathlib

/-!
Shallow embedding of the GitHub repository-analysis dashboard's core logic:
the pagination-following API client (`github-organization-service.js`,
`github-pull-request-service.js`) and the pure aggregation functions of the
`pull-request-list` component (`src/components/pull-request-list.js`).

Dates are modelled as natural numbers counting days since 1970-01-01 (UTC);
the JavaScript `Date` accessors used by the source (`getUTCFullYear`,
`getUTCDay`, `getUTCDate` arithmetic) are reproduced on that representation
via the standard Gregorian civil-calendar conversions.  JavaScript objects
used as string-keyed dictionaries are modelled as insertion-ordered
association lists, matching the enumeration order of `Object.keys` /
`Object.entries` for non-index string keys.
-/

/-! ## Calendar arithmetic -/

/-- Gregorian `(year, month, day)` of a day count since 1970-01-01 (UTC),
the civil-from-days conversion, valid for all days on or after the epoch. -/
def civilFromDays (z0 : Nat) : Nat × Nat × Nat :=
  let z := z0 + 719468
  let era := z / 146097
  let doe := z % 146097
  let yoe := (doe - doe / 1460 + doe / 36524 - doe / 146096) / 365
  let y := yoe + era * 400
  let doy := doe - (365 * yoe + yoe / 4 - yoe / 100)
  let mp := (5 * doy + 2) / 153
  let d := doy - (153 * mp + 2) / 5 + 1
  let m := if mp < 10 then mp + 3 else mp - 9
  (if m ≤ 2 then y + 1 else y, m, d)

/-- Day count since 1970-01-01 (UTC) of a Gregorian date, the days-from-civil
conversion, valid for dates on or after the epoch. -/
def daysFromCivil (year month day : Nat) : Nat :=
  let y := if month ≤ 2 then year - 1 else year
  let era := y / 400
  let yoe := y - era * 400
  let mp := if month > 2 then month - 3 else month + 9
  let doy := (153 * mp + 2) / 5 + day - 1
  let doe := yoe * 365 + yoe / 4 - yoe / 100 + doy
  era * 146097 + doe - 719468

/-- The UTC calendar year of a day count: JavaScript `getUTCFullYear()`. -/
def yearOf (day : Nat) : Nat :=
  (civilFromDays day).1

/-- Day of the week of a day count: JavaScript `getUTCDay()`
(0 = Sunday … 6 = Saturday; the epoch day 1970-01-01 was a Thursday). -/
def dow (day : Nat) : Nat :=
  (day + 4) % 7

/-- The `dayNum` of `getISOWeek`: `date.getUTCDay() || 7` (Monday 1 … Sunday 7). -/
def isoDayNum (day : Nat) : Nat :=
  if dow day = 0 then 7 else dow day

/-- The `tmp` date of `getISOWeek` after `setUTCDate(getUTCDate() + 4 - dayNum)`:
the Thursday of the ISO week containing `day`. -/
def thursdayOfWeek (day : Nat) : Nat :=
  day + 4 - isoDayNum day

/-- Port of `PullRequestList.getISOWeek` (pull-request-list.js): shift the date
to the Thursday of its week, then `Math.ceil(((tmp - yearStart) / 86400000 + 1) / 7)`
against January 1 of the Thursday's year. -/
def getISOWeek (day : Nat) : Nat :=
  let tmp := thursdayOfWeek day
  let yearStart := daysFromCivil (yearOf tmp) 1 1
  (tmp - yearStart) / 7 + 1

/-- JavaScript `week.toString().padStart(2, '0')`. -/
def pad2 (n : Nat) : String :=
  if n < 10 then "0" ++ toString n else toString n

/-- The week label built by `getPRsByUserPerWeek`:
`` `${created.getUTCFullYear()}-W${week.toString().padStart(2, '0')}` ``.
Note the year component is the calendar year of the date itself. -/
def weekKey (day : Nat) : String :=
  toString (yearOf day) ++ "-W" ++ pad2 (getISOWeek day)

/-- Modelled from the spec: the ISO-8601 week-numbering year of a date
(weeks start Monday, week 1 is the week containing the year's first
Thursday), i.e. the calendar year of the Thursday of the date's week.
Used to compare the source's week labels against genuine ISO week identity. -/
def isoWeekYear (day : Nat) : Nat :=
  yearOf (thursdayOfWeek day)

/-! ## Data model -/

/-- One bucket of a per-file-type statistics map:
`{ count, additions, deletions }`. -/
structure Stat where
  count : Nat
  additions : Nat
  deletions : Nat
deriving DecidableEq, Repr

/-- One entry of a pull request's changed-file list:
`{ filename, additions, deletions }`. -/
structure ChangedFile where
  filename : String
  additions : Nat
  deletions : Nat
deriving DecidableEq, Repr

/-- A JavaScript object mapping file-extension tokens to `Stat` buckets,
modelled as an insertion-ordered association list. -/
abbrev StatsMap := List (String × Stat)

/-- A pull request as used by the aggregation functions.  `user` holds
`user.login` (`none` when the PR has no `user`); `created_at` is the UTC day
count of the creation timestamp; `files` and `fileTypeStats` are the fields
attached by `loadPullRequests` (absent on a freshly fetched PR). -/
structure PullRequest where
  number : Nat
  state : String
  user : Option String
  created_at : Nat
  files : List ChangedFile := []
  fileTypeStats : Option StatsMap := none
deriving DecidableEq, Repr

/-- `pr.user?.login || 'unknown'`: the author key of a PR. -/
def userKey (pr : PullRequest) : String :=
  match pr.user with
  | none => "unknown"
  | some l => if l = "" then "unknown" else l

/-! ## JavaScript string-keyed objects as association lists -/

/-- Property read `m[k]` on a JavaScript object modelled as an association
list (`none` when the key is absent). -/
def lookupKey {β : Type} : List (String × β) → String → Option β
  | [], _ => none
  | (k, v) :: rest, q => if k = q then some v else lookupKey rest q

/-- The JavaScript idiom `if (!m[k]) m[k] = d; m[k] = f(m[k])`: update the
value at `k` in place when present, else append `(k, f d)` at the end,
preserving key insertion order. -/
def upsert {β : Type} : List (String × β) → String → β → (β → β) → List (String × β)
  | [], k, d, f => [(k, f d)]
  | (k', v) :: rest, k, d, f =>
      if k' = k then (k', f v) :: rest else (k', v) :: upsert rest k d f

/-! ## File-type bucketing (`loadPullRequests` inner aggregation) -/

/-- JavaScript `filename.split('.')` for the one-character separator `'.'`,
on the filename's character list. -/
def splitDots : List Char → List (List Char)
  | [] => [[]]
  | c :: rest =>
      match splitDots rest with
      | [] => [[]]
      | s :: ss => if c = '.' then [] :: s :: ss else (c :: s) :: ss

/-- `file.filename.split('.').pop() || 'other'`: the extension bucket of a
filename.  `pop()` yields the last `'.'`-separated segment; the `|| 'other'`
fallback fires only when that segment is the empty string. -/
def extOf (filename : String) : String :=
  let lastSeg := (splitDots filename.toList).getLastD []
  if lastSeg = [] then "other" else String.mk lastSeg

/-- One iteration of the `for (const file of files)` loop of
`loadPullRequests`: create the bucket at the file's extension if absent, then
increment its count and add the file's additions and deletions. -/
def addFile (m : StatsMap) (f : ChangedFile) : StatsMap :=
  upsert m (extOf f.filename) ⟨0, 0, 0⟩
    (fun s => ⟨s.count + 1, s.additions + f.additions, s.deletions + f.deletions⟩)

/-- The `fileTypeStats` object built by `loadPullRequests` for one PR's
changed-file list (spec name: `fileTypeStatsForPR`). -/
def fileTypeStatsForPR (files : List ChangedFile) : StatsMap :=
  files.foldl addFile []

/-! ## `loadPullRequests` per-PR enrichment -/

/-- Outcome of the per-PR changed-files fetch inside `loadPullRequests`:
a 2xx response carrying the file list, a non-2xx response (`!res.ok`), or a
thrown error (network failure, malformed JSON) landing in the `catch`. -/
inductive FileFetchOutcome where
  | ok (files : List ChangedFile)
  | httpError
  | thrown
deriving DecidableEq, Repr

/-- Body of the `prs.map(async pr => …)` callback of `loadPullRequests`:
`!res.ok` returns `{ ...pr, files: [] }`; a thrown error returns
`{ ...pr, files: [], fileTypeStats: \x7b\x7d }`; success returns
`{ ...pr, files, fileTypeStats }`. -/
def enrichPR (pr : PullRequest) (out : FileFetchOutcome) : PullRequest :=
  match out with
  | .httpError => { pr with files := [] }
  | .thrown => { pr with files := [], fileTypeStats := some [] }
  | .ok files => { pr with files := files, fileTypeStats := some (fileTypeStatsForPR files) }

/-- The `Promise.all(prs.map(…))` of `loadPullRequests`: each PR is enriched
independently from its own fetch outcome, in input order. -/
def loadPullRequests (prs : List PullRequest) (fetchFiles : PullRequest → FileFetchOutcome) :
    List PullRequest :=
  prs.map (fun pr => enrichPR pr (fetchFiles pr))

/-! ## Grouping by state and author -/

/-- Result shape of `getGroupedPRs`: `{ open: {...}, closed: {...} }`, each
side an insertion-ordered object from author to the author's PR array. -/
structure Grouped where
  openPRs : List (String × List PullRequest)
  closedPRs : List (String × List PullRequest)
deriving Repr

/-- One iteration of the `for (const pr of this.pullRequests)` loop of
`getGroupedPRs`: push the PR onto `grouped[state][user]` with
`state = pr.state === 'open' ? 'open' : 'closed'` and
`user = pr.user?.login || 'unknown'`. -/
def groupStep (g : Grouped) (pr : PullRequest) : Grouped :=
  let u := userKey pr
  if pr.state = "open" then
    { g with openPRs := upsert g.openPRs u [] (fun l => l ++ [pr]) }
  else
    { g with closedPRs := upsert g.closedPRs u [] (fun l => l ++ [pr]) }

/-- Port of `PullRequestList.getGroupedPRs`. -/
def getGroupedPRs (prs : List PullRequest) : Grouped :=
  prs.foldl groupStep ⟨[], []⟩

/-- Port of `PullRequestList.getClosedPRCountsByUser`:
`Object.entries(grouped.closed).map(([user, prs]) => ({user, count: prs.length}))`
sorted with the comparator `(a, b) => b.count - a.count` (stable sort). -/
def getClosedPRCountsByUser (prs : List PullRequest) : List (String × Nat) :=
  let g := getGroupedPRs prs
  let counts := g.closedPRs.map (fun e => (e.1, e.2.length))
  counts.mergeSort (fun a b => decide (b.2 ≤ a.2))

/-! ## Weekly series -/

/-- Accumulator of the first loop of `getPRsByUserPerWeek`: the per-user
week-count object plus the running global minimum and maximum creation date. -/
structure WeekAgg where
  weekMap : List (String × List (String × Nat))
  minDate : Option Nat
  maxDate : Option Nat

/-- One iteration of the first loop of `getPRsByUserPerWeek`: update the
global min/max date and increment `weekMap[user][weekKey]`. -/
def weekAggStep (a : WeekAgg) (pr : PullRequest) : WeekAgg :=
  let u := userKey pr
  let created := pr.created_at
  let minD := match a.minDate with
    | none => some created
    | some m => if created < m then some created else some m
  let maxD := match a.maxDate with
    | none => some created
    | some m => if m < created then some created else some m
  { weekMap := upsert a.weekMap u [] (fun um => upsert um (weekKey created) 0 (fun c => c + 1)),
    minDate := minD,
    maxDate := maxD }

/-- The `do … while (d <= maxDate || lastWeekKey !== maxWeekKey)` loop of
`getPRsByUserPerWeek`, enumerating week keys Monday by Monday from `d`.
`fuel` bounds the number of iterations (the source loop has no such bound and
need not terminate); each iteration pushes the current Monday's key and
continues while the advanced date is still `≤ maxDay` or the pushed key
differs from `maxKey`. -/
def buildWeeks (maxDay : Nat) (maxKey : String) : Nat → Nat → List String
  | 0, _ => []
  | fuel + 1, d =>
      let k := weekKey d
      k :: (if d + 7 ≤ maxDay ∨ k ≠ maxKey then buildWeeks maxDay maxKey fuel (d + 7) else [])

/-- Port of `PullRequestList.getPRsByUserPerWeek`: build the per-user week
counts and the global date range, enumerate all week keys from the Monday of
the minimum date's week until the maximum date's key is emitted, then for
each user fill every enumerated week with `weekMap[user][week] || 0`.
`fuel` bounds the week-enumeration loop. -/
def getPRsByUserPerWeek (prs : List PullRequest) (fuel : Nat) :
    List (String × List (String × Nat)) :=
  let agg := prs.foldl weekAggStep ⟨[], none, none⟩
  match agg.minDate, agg.maxDate with
  | some minD, some maxD =>
      let start := minD - (dow minD + 6) % 7
      let maxKey := weekKey maxD
      let allWeeks := buildWeeks maxD maxKey fuel start
      agg.weekMap.map (fun e => (e.1, allWeeks.map (fun w => (w, (lookupKey e.2 w).getD 0))))
  | _, _ => []

/-! ## Combined per-author file-type statistics -/

/-- Componentwise sum of two `Stat` buckets. -/
def addStat (a b : Stat) : Stat :=
  ⟨a.count + b.count, a.additions + b.additions, a.deletions + b.deletions⟩

/-- The inner `for (const ext of Object.keys(pr.fileTypeStats))` loop of
`getCombinedFileTypeStatsByUser`: fold each bucket of `src` into `acc`,
creating missing buckets as `{ additions: 0, deletions: 0, count: 0 }`. -/
def mergeStatsInto (acc : StatsMap) (src : StatsMap) : StatsMap :=
  src.foldl (fun acc e => upsert acc e.1 ⟨0, 0, 0⟩ (fun t => addStat t e.2)) acc

/-- One iteration of the outer loop of `getCombinedFileTypeStatsByUser`:
`if (!stats[user]) stats[user] = \x7b\x7d;` then, when the PR carries a
`fileTypeStats` object, merge it into `stats[user]`. -/
def addPRStats (stats : List (String × StatsMap)) (pr : PullRequest) :
    List (String × StatsMap) :=
  let u := userKey pr
  let stats := if (lookupKey stats u).isNone then stats ++ [(u, [])] else stats
  match pr.fileTypeStats with
  | none => stats
  | some m => upsert stats u [] (fun cur => mergeStatsInto cur m)

/-- Port of `PullRequestList.getCombinedFileTypeStatsByUser`. -/
def getCombinedFileTypeStatsByUser (prs : List PullRequest) :
    List (String × StatsMap) :=
  prs.foldl addPRStats []

/-! ## Paginated API client -/

/-- An HTTP response as seen by the pagination loops: `ok`/`status`/
`statusText` of the `fetch` response, the parsed JSON array body, and the
target of the `Link: rel="next"` header (`none` when the header is absent or
carries no next relation), abstracted as a page identifier. -/
structure PageResponse (α : Type) where
  ok : Bool
  status : Nat
  statusText : String
  body : List α
  next : Option Nat
deriving Repr

/-- The generic-error message `` `GitHub API error: ${status} ${statusText}` ``. -/
def apiErrorMsg (status : Nat) (statusText : String) : String :=
  "GitHub API error: " ++ toString status ++ " " ++ statusText

/-- The distinguished 403 message of `fetchOrganizationRepositories`. -/
def accessDeniedMsg : String :=
  "Access denied. You do not have permission to view repositories for this organization."

/-- The `while (url)` loop of `fetchRepositoryPullRequests` (and
`fetchAllUserOrganizations`): request the current page, throw the generic
error on a non-2xx response, otherwise concatenate the body and follow the
`Link rel="next"` target until it is absent.  `fuel` bounds the iterations. -/
def followPages {α : Type} (server : Nat → PageResponse α) :
    Nat → Option Nat → List α → Except String (List α)
  | _, none, acc => .ok acc
  | 0, some _, _ => .error "out of fuel"
  | fuel + 1, some u, acc =>
      let r := server u
      if r.ok then followPages server fuel r.next (acc ++ r.body)
      else .error (apiErrorMsg r.status r.statusText)

/-- Port of `fetchRepositoryPullRequests`: follow `Link rel="next"` from the
first page, concatenating pages in response order. -/
def fetchRepositoryPullRequests {α : Type} (server : Nat → PageResponse α) (fuel : Nat) :
    Except String (List α) :=
  followPages server fuel (some 0) []

/-- The `while (hasMore)` loop of `fetchOrganizationRepositories`
(github-organization-service, paginated variant): request page `page`, map a
403 to the distinguished access-denied error and any other non-2xx to the
generic error, otherwise concatenate the body and continue with `page + 1`
while the page held exactly 100 items.  `fuel` bounds the iterations. -/
def fetchOrgReposLoop {α : Type} (server : Nat → PageResponse α) :
    Nat → Nat → List α → Except String (List α)
  | 0, _, _ => .error "out of fuel"
  | fuel + 1, page, acc =>
      let r := server page
      if r.ok then
        let acc := acc ++ r.body
        if r.body.length = 100 then fetchOrgReposLoop server fuel (page + 1) acc
        else .ok acc
      else if r.status = 403 then .error accessDeniedMsg
      else .error (apiErrorMsg r.status r.statusText)

/-- Port of `fetchOrganizationRepositories`: page-counter pagination starting
at `page = 1` with an empty accumulator. -/
def fetchOrganizationRepositories {α : Type} (server : Nat → PageResponse α) (fuel : Nat) :
    Except String (List α) :=
  fetchOrgReposLoop server fuel 1 []

/-- A compliant `Link`-header server presenting a fixed list of pages: page
`i` is served with a 200, its body is the `i`-th page, and the next link
points at page `i + 1` exactly when a further page exists. -/
def listServer {α : Type} (pages : List (List α)) (u : Nat) : PageResponse α :=
  { ok := true
    status := 200
    statusText := "OK"
    body := pages.getD u []
    next := if u + 1 < pages.length then some (u + 1) else none }

/-- A compliant page-counter server presenting a fixed item list in chunks of
100: page `p` (1-based) is served with a 200 and carries items
`(p-1)*100 … p*100`. -/
def counterServer {α : Type} (items : List α) (p : Nat) : PageResponse α :=
  { ok := true
    status := 200
    statusText := "OK"
    body := (items.drop ((p - 1) * 100)).take 100
    next := none }

/-! ## Basic lemmas about the association-list object model -/

theorem lookupKey_upsert {β : Type} (m : List (String × β)) (k : String) (d : β) (f : β → β)
    (q : String) :
    lookupKey (upsert m k d f) q =
      if q = k then some (f ((lookupKey m k).getD d)) else lookupKey m q := by
  induction m with
  | nil =>
      by_cases h : q = k
      · subst h; simp [upsert, lookupKey]
      · have h2 : ¬k = q := fun hh => h hh.symm
        simp [upsert, lookupKey, h, h2]
  | cons e rest ih =>
      obtain ⟨k', v⟩ := e
      by_cases hk : k' = k
      · subst hk
        by_cases hq : q = k'
        · subst hq; simp [upsert, lookupKey]
        · have h2 : ¬k' = q := fun hh => hq hh.symm
          simp [upsert, lookupKey, hq, h2]
      · by_cases hq : k' = q
        · subst hq
          simp [upsert, lookupKey, hk]
        · simp [upsert, lookupKey, hk, hq, ih]

theorem lookupKey_append {β : Type} (m l : List (String × β)) (q : String) :
    lookupKey (m ++ l) q =
      match lookupKey m q with
      | some v => some v
      | none => lookupKey l q := by
  induction m with
  | nil => simp [lookupKey]
  | cons e rest ih =>
      by_cases h : e.1 = q <;> simp [lookupKey, h, ih]

theorem lookupKey_eq_none_iff {β : Type} (m : List (String × β)) (q : String) :
    lookupKey m q = none ↔ q ∉ m.map Prod.fst := by
  induction m with
  | nil => simp [lookupKey]
  | cons e rest ih =>
      obtain ⟨k, v⟩ := e
      by_cases h : k = q
      · subst h; simp [lookupKey]
      · have h2 : ¬q = k := fun hh => h hh.symm
        simp [lookupKey, h, h2, ih]

theorem keys_upsert {β : Type} (m : List (String × β)) (k : String) (d : β) (f : β → β) :
    (upsert m k d f).map Prod.fst =
      if k ∈ m.map Prod.fst then m.map Prod.fst else m.map Prod.fst ++ [k] := by
  induction m with
  | nil => simp [upsert]
  | cons e rest ih =>
      obtain ⟨k', v⟩ := e
      by_cases hk : k' = k
      · subst hk; simp [upsert]
      · have hk2 : ¬k = k' := fun h => hk h.symm
        by_cases hmem : k ∈ rest.map Prod.fst
        · simp [upsert, hk, hk2, hmem, ih]
        · simp [upsert, hk, hk2, hmem, ih]

/-! ## Claim C2: file-extension bucketing -/

/-- C2 counterexample: on the spec's own scenario input the file `README`
(no dot in the filename) is bucketed under the key `"README"`, not under
`"other"` — `'README'.split('.').pop()` is `"README"`, which is truthy, so
the `|| 'other'` fallback never fires for a dotless filename. -/
theorem C2_counterexample :
    lookupKey (fileTypeStatsForPR
        [⟨"a.js", 3, 1⟩, ⟨"README", 2, 0⟩]) "other" = none ∧
    lookupKey (fileTypeStatsForPR
        [⟨"a.js", 3, 1⟩, ⟨"README", 2, 0⟩]) "README" = some ⟨1, 2, 0⟩ := by
  decide

theorem splitDots_no_dot (cs : List Char) (h : '.' ∉ cs) : splitDots cs = [cs] := by
  induction cs with
  | nil => rfl
  | cons c rest ih =>
      have hc : ¬c = '.' := fun hc => h (hc ▸ List.mem_cons_self c rest)
      have hrest : '.' ∉ rest := fun hr => h (List.mem_cons_of_mem c hr)
      simp [splitDots, ih hrest, hc]

/-- C2 amended: `fileTypeStatsForPR` buckets each file by the last
`'.'`-separated segment of its filename and sums additions/deletions and
counts files; a filename containing no dot is bucketed under the whole
filename (`"other"` is used only when that last segment is empty, i.e. for
an empty filename or one ending in a dot), so the scenario input yields
`js ↦ {count 1, additions 3, deletions 1}` and
`README ↦ {count 1, additions 2, deletions 0}`. -/
theorem C2_amended :
    (∀ cs : List Char, '.' ∉ cs →
       extOf (String.mk cs) = if cs = [] then "other" else String.mk cs) ∧
    extOf "a." = "other" ∧
    fileTypeStatsForPR [⟨"a.js", 3, 1⟩, ⟨"README", 2, 0⟩] =
      [("js", ⟨1, 3, 1⟩), ("README", ⟨1, 2, 0⟩)] := by
  refine ⟨fun cs h => ?_, by decide, by decide⟩
  have hl : (String.mk cs).toList = cs := rfl
  rw [extOf, hl, splitDots_no_dot cs h]
  cases cs <;> simp

/-- C2 amended witness: the concrete dotless filename `README` is bucketed
under the whole filename. -/
theorem C2_amended_witness :
    extOf (String.mk ['R', 'E', 'A', 'D', 'M', 'E']) =
      if (['R', 'E', 'A', 'D', 'M', 'E'] : List Char) = [] then "other"
      else String.mk ['R', 'E', 'A', 'D', 'M', 'E'] :=
  C2_amended.1 ['R', 'E', 'A', 'D', 'M', 'E'] (by decide)

/-! ## Claim C3: week labels and ISO week identity -/

/-- C3: the week label pairs the ISO week number with the plain UTC calendar
year of the date, not the ISO week-numbering year, so the label does not
identify the ISO week across a year boundary: 2025-12-29 lies in ISO week 1
of 2026 yet is labelled `"2025-W01"`, colliding with the label of
2025-01-02, which lies in ISO week 1 of 2025. -/
theorem C3_weekKey_not_iso :
    weekKey (daysFromCivil 2025 12 29) = "2025-W01" ∧
    weekKey (daysFromCivil 2025 1 2) = "2025-W01" ∧
    getISOWeek (daysFromCivil 2025 12 29) = 1 ∧
    getISOWeek (daysFromCivil 2025 1 2) = 1 ∧
    isoWeekYear (daysFromCivil 2025 12 29) = 2026 ∧
    isoWeekYear (daysFromCivil 2025 1 2) = 2025 := by
  decide

/-! ## Claim C1: weekly series on a year-boundary input -/

/-- C1: on two PRs by the same author created 2024-12-30 and 2025-01-02 —
both inside the single ISO week 2025-W01, as the trailing `isoWeekYear` and
`getISOWeek` conjuncts certify — `getPRsByUserPerWeek` does not return one
entry of count 2 for that week: it returns 53 entries (first key
`"2024-W01"`, last key `"2025-W01"`) with the two PRs counted separately in
the first and last entries, because the week label uses the calendar year
and the enumeration loop keeps running until the maximum date's label is
reproduced a year later. -/
theorem C1_weekly_series_bug :
    ((getPRsByUserPerWeek
        [{ number := 1, state := "closed", user := some "alice",
           created_at := daysFromCivil 2024 12 30 },
         { number := 2, state := "open", user := some "alice",
           created_at := daysFromCivil 2025 1 2 }] 60).map
        (fun e => (e.1, e.2.length, (e.2.map Prod.snd).sum,
          e.2.headD ("", 0), e.2.getLastD ("", 0))) =
      [("alice", 53, 2, ("2024-W01", 1), ("2025-W01", 1))]) ∧
    isoWeekYear (daysFromCivil 2024 12 30) = isoWeekYear (daysFromCivil 2025 1 2) ∧
    getISOWeek (daysFromCivil 2024 12 30) = getISOWeek (daysFromCivil 2025 1 2) := by
  decide

/-! ## Claim C6: per-PR fetch-failure tolerance of `loadPullRequests` -/

/-- C6: when the changed-files fetch of one PR fails — by non-2xx response
or thrown error — `loadPullRequests` keeps that PR at its position with an
empty file list and no accumulated file-type stats, the overall listing
keeps its length, and every other PR is enriched from its own fetch outcome
alone. -/
theorem C6_file_fetch_failure_tolerated (prs : List PullRequest)
    (fetchFiles : PullRequest → FileFetchOutcome)
    (hraw : ∀ pr ∈ prs, pr.fileTypeStats = none) :
    (loadPullRequests prs fetchFiles).length = prs.length ∧
    (∀ i (h : i < prs.length) (h2 : i < (loadPullRequests prs fetchFiles).length),
      ((fetchFiles prs[i] = .httpError ∨ fetchFiles prs[i] = .thrown) →
        ((loadPullRequests prs fetchFiles)[i].files = [] ∧
         ((loadPullRequests prs fetchFiles)[i].fileTypeStats = none ∨
          (loadPullRequests prs fetchFiles)[i].fileTypeStats = some []) ∧
         (loadPullRequests prs fetchFiles)[i].number = prs[i].number ∧
         (loadPullRequests prs fetchFiles)[i].state = prs[i].state ∧
         (loadPullRequests prs fetchFiles)[i].user = prs[i].user ∧
         (loadPullRequests prs fetchFiles)[i].created_at = prs[i].created_at)) ∧
      (∀ fs, fetchFiles prs[i] = .ok fs →
        (loadPullRequests prs fetchFiles)[i] =
          { prs[i] with files := fs, fileTypeStats := some (fileTypeStatsForPR fs) })) := by
  constructor
  · simp [loadPullRequests]
  · intro i h h2
    have hget : (loadPullRequests prs fetchFiles)[i] = enrichPR prs[i] (fetchFiles prs[i]) := by
      simp [loadPullRequests]
    constructor
    · rintro (hout | hout) <;>
        simp [hget, hout, enrichPR, hraw prs[i] (List.getElem_mem h)]
    · intro fs hout
      simp [hget, hout, enrichPR]

/-- C6 witness at a one-element list whose only fetch fails with a non-2xx
response: the listing is not aborted and keeps its single entry. -/
theorem C6_file_fetch_failure_tolerated_witness :
    (loadPullRequests [{ number := 7, state := "open", user := some "alice", created_at := 0 }]
        (fun _ => FileFetchOutcome.httpError)).length = 1 :=
  (C6_file_fetch_failure_tolerated
      [{ number := 7, state := "open", user := some "alice", created_at := 0 }]
      (fun _ => FileFetchOutcome.httpError)
      (by intro pr hpr; simp at hpr; simp [hpr])).1

/-! ## Claim C4: pagination completeness -/

theorem followPages_listServer {α : Type} (pages : List (List α)) :
    ∀ (fuel i : Nat) (acc : List α), pages.length - i < fuel →
      followPages (listServer pages) fuel (some i) acc = .ok (acc ++ (pages.drop i).flatten) := by
  intro fuel
  induction fuel with
  | zero => intro i acc h; omega
  | succ f ih =>
      intro i acc h
      have hstep : followPages (listServer pages) (f + 1) (some i) acc =
          followPages (listServer pages) f
            (if i + 1 < pages.length then some (i + 1) else none)
            (acc ++ pages.getD i []) := by
        simp [followPages, listServer]
      rw [hstep]
      by_cases hi : i + 1 < pages.length
      · rw [if_pos hi, ih (i + 1) _ (by omega)]
        have hlt : i < pages.length := by omega
        rw [List.getD_eq_getElem _ _ hlt, List.drop_eq_getElem_cons hlt]
        simp only [List.flatten_cons, List.append_assoc]
      · rw [if_neg hi]
        have hnone : followPages (listServer pages) f none (acc ++ pages.getD i []) =
            .ok (acc ++ pages.getD i []) := by
          cases f <;> simp [followPages]
        rw [hnone]
        by_cases hlen : i < pages.length
        · rw [List.getD_eq_getElem _ _ hlen, List.drop_eq_getElem_cons hlen]
          have hnil : pages.drop (i + 1) = [] := List.drop_eq_nil_of_le (by omega)
          rw [hnil]
          simp only [List.flatten_cons, List.flatten_nil, List.append_nil]
        · have h1 : pages.getD i [] = [] := List.getD_eq_default _ _ (by omega)
          have h2 : pages.drop i = [] := List.drop_eq_nil_of_le (by omega)
          rw [h1, h2]
          simp only [List.flatten_nil]

theorem fetchOrgReposLoop_counterServer {α : Type} (items : List α) :
    ∀ (fuel p : Nat) (acc : List α), 0 < fuel → 1 ≤ p →
      items.length < (p - 1) * 100 + fuel * 100 →
      fetchOrgReposLoop (counterServer items) fuel p acc =
        .ok (acc ++ items.drop ((p - 1) * 100)) := by
  intro fuel
  induction fuel with
  | zero => intro p acc h; omega
  | succ f ih =>
      intro p acc _ hp hlen
      have hstep : fetchOrgReposLoop (counterServer items) (f + 1) p acc =
          (if ((items.drop ((p - 1) * 100)).take 100).length = 100 then
             fetchOrgReposLoop (counterServer items) f (p + 1)
               (acc ++ (items.drop ((p - 1) * 100)).take 100)
           else .ok (acc ++ (items.drop ((p - 1) * 100)).take 100)) := by
        simp [fetchOrgReposLoop, counterServer]
      rw [hstep]
      have hrem : (items.drop ((p - 1) * 100)).length = items.length - (p - 1) * 100 :=
        List.length_drop _ _
      have htk : ((items.drop ((p - 1) * 100)).take 100).length =
          min 100 (items.drop ((p - 1) * 100)).length := List.length_take _ _
      by_cases hfull : ((items.drop ((p - 1) * 100)).take 100).length = 100
      · rw [if_pos hfull]
        have hge : 100 ≤ items.length - (p - 1) * 100 := by omega
        have hfpos : 0 < f := by omega
        rw [ih (p + 1) _ hfpos (by omega) (by omega)]
        have hp1 : (p + 1 - 1) * 100 = (p - 1) * 100 + 100 := by omega
        rw [hp1, ← List.drop_drop, List.append_assoc, List.take_append_drop]
      · rw [if_neg hfull]
        have hsmall : (items.drop ((p - 1) * 100)).length ≤ 100 := by omega
        rw [List.take_of_length_le hsmall]

set_option maxRecDepth 100000 in
/-- C4: both pagination variants return every item of a compliant server with
no duplicates and no truncation: the `Link rel="next"` follower returns the
concatenation of all pages in response order, the page-counter variant
returns the full item list, and on the server presenting 3 pages of
100/100/37 distinct items both return exactly the 237 distinct items. -/
theorem C4_pagination :
    (∀ (α : Type) (pages : List (List α)) (fuel : Nat), pages.length < fuel →
       fetchRepositoryPullRequests (listServer pages) fuel = .ok pages.flatten) ∧
    (∀ (α : Type) (items : List α) (fuel : Nat), 0 < fuel → items.length < fuel * 100 →
       fetchOrganizationRepositories (counterServer items) fuel = .ok items) ∧
    fetchRepositoryPullRequests (listServer
      [List.range 100, List.map (fun n => 100 + n) (List.range 100),
       List.map (fun n => 200 + n) (List.range 37)]) 4 = .ok (List.range 237) ∧
    fetchOrganizationRepositories (counterServer (List.range 237)) 4 = .ok (List.range 237) ∧
    (List.range 237).length = 237 ∧ (List.range 237).Nodup := by
  refine ⟨?_, ?_, by rfl, by rfl, by simp, List.nodup_range 237⟩
  · intro α pages fuel h
    have hmain := followPages_listServer pages fuel 0 [] (by omega)
    simpa [fetchRepositoryPullRequests] using hmain
  · intro α items fuel h0 hlen
    have hmain := fetchOrgReposLoop_counterServer items fuel 1 [] h0 (le_refl 1) (by omega)
    simpa [fetchOrganizationRepositories] using hmain

/-- C4 witness: both variants at small concrete compliant servers. -/
theorem C4_pagination_witness :
    fetchRepositoryPullRequests (listServer [[1, 2], [3]]) 3 = .ok [1, 2, 3] ∧
    fetchOrganizationRepositories (counterServer [5, 6]) 1 = .ok [5, 6] :=
  ⟨C4_pagination.1 Nat [[1, 2], [3]] 3 (by decide),
   C4_pagination.2.1 Nat [5, 6] 1 (by decide) (by decide)⟩

/-! ## Claim C5: 403 versus generic API error -/

theorem apiErrorMsg_ne_accessDeniedMsg (s : Nat) (t : String) :
    apiErrorMsg s t ≠ accessDeniedMsg := by
  intro h
  have h1 : (apiErrorMsg s t).data.head? = some 'G' := by
    show ("GitHub API error: " ++ toString s ++ " " ++ t).data.head? = some 'G'
    rw [String.data_append, String.data_append, String.data_append]
    rfl
  rw [h] at h1
  have h2 : accessDeniedMsg.data.head? = some 'A' := rfl
  rw [h2] at h1
  exact absurd h1 (by decide)

/-- C5: `fetchOrganizationRepositories` fails with the distinguished
access-denied message exactly when the responsible page answered 403: a
non-2xx page produces the access-denied error precisely when its status is
403 and the generic `status`/`statusText` error otherwise, the access-denied
error can only ever arise from a 403 page, the message begins with
"Access denied", and it differs from the generic message of a 500. -/
theorem C5_access_denied :
    (∀ (α : Type) (server : Nat → PageResponse α) (fuel page : Nat) (acc : List α),
       (server page).ok = false →
       fetchOrgReposLoop server (fuel + 1) page acc =
         .error (if (server page).status = 403 then accessDeniedMsg
                 else apiErrorMsg (server page).status (server page).statusText)) ∧
    (∀ (α : Type) (server : Nat → PageResponse α) (fuel page : Nat) (acc : List α),
       fetchOrgReposLoop server fuel page acc = .error accessDeniedMsg →
       ∃ p, (server p).ok = false ∧ (server p).status = 403) ∧
    (∃ r, accessDeniedMsg = "Access denied" ++ r) ∧
    apiErrorMsg 500 "Internal Server Error" ≠ accessDeniedMsg := by
  refine ⟨?_, ?_,
    ⟨". You do not have permission to view repositories for this organization.", rfl⟩,
    apiErrorMsg_ne_accessDeniedMsg 500 "Internal Server Error"⟩
  · intro α server fuel page acc hok
    by_cases hs : (server page).status = 403 <;>
      simp [fetchOrgReposLoop, hok, hs]
  · intro α server fuel
    induction fuel with
    | zero =>
        intro page acc h
        simp only [fetchOrgReposLoop] at h
        have hne : ("out of fuel" : String) ≠ accessDeniedMsg := by decide
        simp at h
        exact absurd h hne
    | succ f ih =>
        intro page acc h
        simp only [fetchOrgReposLoop] at h
        by_cases hok : (server page).ok = true
        · rw [if_pos hok] at h
          by_cases hfull : (server page).body.length = 100
          · rw [if_pos hfull] at h
            exact ih _ _ h
          · rw [if_neg hfull] at h
            simp at h
        · rw [if_neg hok] at h
          by_cases hs : (server page).status = 403
          · exact ⟨page, by simpa using hok, hs⟩
          · rw [if_neg hs] at h
            simp at h
            exact absurd h (apiErrorMsg_ne_accessDeniedMsg _ _)

/-- A server answering 403 on every page, for the C5 witness. -/
def srv403 : Nat → PageResponse Nat :=
  fun _ => { ok := false, status := 403, statusText := "Forbidden", body := [], next := none }

/-- C5 witness: one loop step against a 403 server yields the distinguished
access-denied error. -/
theorem C5_access_denied_witness :
    fetchOrgReposLoop srv403 1 1 ([] : List Nat) = .error accessDeniedMsg := by
  have h := C5_access_denied.1 Nat srv403 0 1 [] rfl
  simpa [srv403] using h

/-! ## Claims C7 and C8: grouping by state and author -/

/-- All PRs stored across all buckets of one side of the grouping, in bucket
order (the concatenation `Object.values` would produce). -/
def joinVals {β : Type} (m : List (String × List β)) : List β :=
  (m.map Prod.snd).flatten

theorem joinVals_upsert_push {β : Type} (m : List (String × List β)) (k : String) (x : β) :
    (joinVals (upsert m k [] (fun l => l ++ [x]))).Perm (x :: joinVals m) := by
  induction m with
  | nil => simp [upsert, joinVals]
  | cons e rest ih =>
      obtain ⟨k', v⟩ := e
      by_cases hk : k' = k
      · have hu : upsert ((k', v) :: rest) k [] (fun l => l ++ [x]) = (k', v ++ [x]) :: rest := by
          simp [upsert, hk]
        rw [hu]
        simp only [joinVals, List.map_cons, List.flatten_cons, List.append_assoc,
          List.singleton_append]
        exact List.perm_middle
      · have hu : upsert ((k', v) :: rest) k [] (fun l => l ++ [x]) =
            (k', v) :: upsert rest k [] (fun l => l ++ [x]) := by
          simp [upsert, hk]
        rw [hu]
        simp only [joinVals, List.map_cons, List.flatten_cons]
        exact (List.Perm.append_left v ih).trans List.perm_middle

theorem upsert_buckets_ok {β : Type} (P : String × β → Prop) (m : List (String × β))
    (k : String) (d : β) (f : β → β)
    (hm : ∀ e ∈ m, P e) (hd : P (k, d)) (hf : ∀ v, P (k, v) → P (k, f v)) :
    ∀ e ∈ upsert m k d f, P e := by
  induction m with
  | nil =>
      intro e he
      rw [show upsert ([] : List (String × β)) k d f = [(k, f d)] from rfl] at he
      rcases List.mem_singleton.mp he with rfl
      exact hf d hd
  | cons e0 rest ih =>
      obtain ⟨k', v⟩ := e0
      intro e he
      by_cases hk : k' = k
      · subst hk
        rw [show upsert ((k', v) :: rest) k' d f = (k', f v) :: rest from by simp [upsert]] at he
        rcases List.mem_cons.mp he with rfl | hmem
        · exact hf v (hm (k', v) (List.mem_cons_self _ _))
        · exact hm e (List.mem_cons_of_mem _ hmem)
      · rw [show upsert ((k', v) :: rest) k d f = (k', v) :: upsert rest k d f from by
            simp [upsert, hk]] at he
        rcases List.mem_cons.mp he with rfl | hmem
        · exact hm (k', v) (List.mem_cons_self _ _)
        · exact ih (fun e2 he2 => hm e2 (List.mem_cons_of_mem _ he2)) e hmem

theorem grouped_open_perm (prs : List PullRequest) :
    ∀ g0 : Grouped,
      (joinVals (prs.foldl groupStep g0).openPRs).Perm
        (joinVals g0.openPRs ++ prs.filter (fun pr => decide (pr.state = "open"))) := by
  induction prs with
  | nil => intro g0; simp
  | cons pr rest ih =>
      intro g0
      rw [List.foldl_cons]
      by_cases hs : pr.state = "open"
      · have hstep : groupStep g0 pr =
            { g0 with openPRs := upsert g0.openPRs (userKey pr) [] (fun l => l ++ [pr]) } := by
          simp [groupStep, hs]
        rw [hstep]
        refine (ih _).trans ?_
        have h2 : (joinVals (upsert g0.openPRs (userKey pr) [] (fun l => l ++ [pr]))).Perm
            (pr :: joinVals g0.openPRs) := joinVals_upsert_push _ _ _
        refine (h2.append_right _).trans ?_
        rw [show (pr :: rest).filter (fun pr => decide (pr.state = "open")) =
              pr :: rest.filter (fun pr => decide (pr.state = "open")) from by simp [hs]]
        exact List.perm_middle.symm
      · have hstep : (groupStep g0 pr).openPRs = g0.openPRs := by
          simp [groupStep, hs]
        have h1 := ih (groupStep g0 pr)
        rw [hstep] at h1
        rw [show (pr :: rest).filter (fun pr => decide (pr.state = "open")) =
              rest.filter (fun pr => decide (pr.state = "open")) from by simp [hs]]
        exact h1

theorem grouped_closed_perm (prs : List PullRequest) :
    ∀ g0 : Grouped,
      (joinVals (prs.foldl groupStep g0).closedPRs).Perm
        (joinVals g0.closedPRs ++ prs.filter (fun pr => !decide (pr.state = "open"))) := by
  induction prs with
  | nil => intro g0; simp
  | cons pr rest ih =>
      intro g0
      rw [List.foldl_cons]
      by_cases hs : pr.state = "open"
      · have hstep : (groupStep g0 pr).closedPRs = g0.closedPRs := by
          simp [groupStep, hs]
        have h1 := ih (groupStep g0 pr)
        rw [hstep] at h1
        rw [show (pr :: rest).filter (fun pr => !decide (pr.state = "open")) =
              rest.filter (fun pr => !decide (pr.state = "open")) from by simp [hs]]
        exact h1
      · have hstep : groupStep g0 pr =
            { g0 with closedPRs := upsert g0.closedPRs (userKey pr) [] (fun l => l ++ [pr]) } := by
          simp [groupStep, hs]
        rw [hstep]
        refine (ih _).trans ?_
        have h2 : (joinVals (upsert g0.closedPRs (userKey pr) [] (fun l => l ++ [pr]))).Perm
            (pr :: joinVals g0.closedPRs) := joinVals_upsert_push _ _ _
        refine (h2.append_right _).trans ?_
        rw [show (pr :: rest).filter (fun pr => !decide (pr.state = "open")) =
              pr :: rest.filter (fun pr => !decide (pr.state = "open")) from by simp [hs]]
        exact List.perm_middle.symm

theorem grouped_open_ok (prs : List PullRequest) :
    ∀ g0 : Grouped,
      (∀ e ∈ g0.openPRs, ∀ pr ∈ e.2, pr.state = "open" ∧ userKey pr = e.1) →
      ∀ e ∈ (prs.foldl groupStep g0).openPRs, ∀ pr ∈ e.2,
        pr.state = "open" ∧ userKey pr = e.1 := by
  induction prs with
  | nil => intro g0 h; simpa using h
  | cons pr rest ih =>
      intro g0 h
      rw [List.foldl_cons]
      apply ih
      by_cases hs : pr.state = "open"
      · rw [show (groupStep g0 pr).openPRs =
              upsert g0.openPRs (userKey pr) [] (fun l => l ++ [pr]) from by simp [groupStep, hs]]
        apply upsert_buckets_ok
          (fun e => ∀ q ∈ e.2, q.state = "open" ∧ userKey q = e.1) _ _ _ _ h
        · intro q hq
          cases hq
        · intro v hv q hq
          rcases List.mem_append.mp hq with h1 | h1
          · exact hv q h1
          · rcases List.mem_singleton.mp h1 with rfl
            exact ⟨hs, rfl⟩
      · rw [show (groupStep g0 pr).openPRs = g0.openPRs from by simp [groupStep, hs]]
        exact h

theorem grouped_closed_ok (prs : List PullRequest) :
    ∀ g0 : Grouped,
      (∀ e ∈ g0.closedPRs, ∀ pr ∈ e.2, ¬pr.state = "open" ∧ userKey pr = e.1) →
      ∀ e ∈ (prs.foldl groupStep g0).closedPRs, ∀ pr ∈ e.2,
        ¬pr.state = "open" ∧ userKey pr = e.1 := by
  induction prs with
  | nil => intro g0 h; simpa using h
  | cons pr rest ih =>
      intro g0 h
      rw [List.foldl_cons]
      apply ih
      by_cases hs : pr.state = "open"
      · rw [show (groupStep g0 pr).closedPRs = g0.closedPRs from by simp [groupStep, hs]]
        exact h
      · rw [show (groupStep g0 pr).closedPRs =
              upsert g0.closedPRs (userKey pr) [] (fun l => l ++ [pr]) from by
            simp [groupStep, hs]]
        apply upsert_buckets_ok
          (fun e => ∀ q ∈ e.2, ¬q.state = "open" ∧ userKey q = e.1) _ _ _ _ h
        · intro q hq
          cases hq
        · intro v hv q hq
          rcases List.mem_append.mp hq with h1 | h1
          · exact hv q h1
          · rcases List.mem_singleton.mp h1 with rfl
            exact ⟨hs, rfl⟩

/-- C7: `getGroupedPRs` places every PR in exactly one of the two buckets —
every PR stored on the open side has state exactly `"open"` and every PR on
the closed side any other state, each under its author key (`user.login` or
`"unknown"`) — and the concatenation of all buckets of both sides is a
permutation of the input list, so the union of the grouped PRs is the input
set and no PR is dropped, duplicated, or put in a third bucket. -/
theorem C7_group_partition (prs : List PullRequest) :
    ((joinVals (getGroupedPRs prs).openPRs) ++ (joinVals (getGroupedPRs prs).closedPRs)).Perm
      prs ∧
    (∀ e ∈ (getGroupedPRs prs).openPRs, ∀ pr ∈ e.2, pr.state = "open" ∧ userKey pr = e.1) ∧
    (∀ e ∈ (getGroupedPRs prs).closedPRs, ∀ pr ∈ e.2,
      ¬pr.state = "open" ∧ userKey pr = e.1) := by
  refine ⟨?_, ?_, ?_⟩
  · have ho := grouped_open_perm prs ⟨[], []⟩
    have hc := grouped_closed_perm prs ⟨[], []⟩
    rw [show joinVals (Grouped.mk [] []).openPRs = [] from rfl, List.nil_append] at ho
    rw [show joinVals (Grouped.mk [] []).closedPRs = [] from rfl, List.nil_append] at hc
    exact (ho.append hc).trans (List.filter_append_perm _ prs)
  · exact grouped_open_ok prs ⟨[], []⟩ (by intro e he; cases he)
  · exact grouped_closed_ok prs ⟨[], []⟩ (by intro e he; cases he)

/-- An open PR by alice, used by concrete witnesses. -/
def prAlice : PullRequest :=
  { number := 1, state := "open", user := some "alice", created_at := 0 }

/-- A closed PR by bob, used by concrete witnesses. -/
def prBob : PullRequest :=
  { number := 2, state := "closed", user := some "bob", created_at := 0 }

/-- C7 witness: on a singleton list the unique PR lands in the open bucket
under its author, with its state and author key certified. -/
theorem C7_group_partition_witness :
    prAlice.state = "open" ∧ userKey prAlice = "alice" :=
  (C7_group_partition [prAlice]).2.1 ("alice", [prAlice]) (by decide) prAlice (by decide)

/-- C8: `getClosedPRCountsByUser` is sorted non-increasingly by count and the
counts sum to the number of input PRs whose state is not `"open"`. -/
theorem C8_closed_counts (prs : List PullRequest) :
    List.Pairwise (fun a b : String × Nat => b.2 ≤ a.2) (getClosedPRCountsByUser prs) ∧
    ((getClosedPRCountsByUser prs).map Prod.snd).sum =
      (prs.filter (fun pr => !decide (pr.state = "open"))).length := by
  constructor
  · have hs := @List.sorted_mergeSort (String × Nat)
      (fun a b : String × Nat => decide (b.2 ≤ a.2))
      (by intro a b c hab hbc; simp at hab hbc ⊢; omega)
      (by intro a b; simp [Bool.or_eq_true]; omega)
      ((getGroupedPRs prs).closedPRs.map (fun e => (e.1, e.2.length)))
    exact hs.imp (by intro a b h; simpa using h)
  · have hperm := List.mergeSort_perm
      ((getGroupedPRs prs).closedPRs.map (fun e => (e.1, e.2.length)))
      (fun a b => decide (b.2 ≤ a.2))
    have hsum : ((getClosedPRCountsByUser prs).map Prod.snd).sum =
        ((((getGroupedPRs prs).closedPRs.map (fun e => (e.1, e.2.length))).map Prod.snd)).sum :=
      (hperm.map Prod.snd).sum_eq
    rw [hsum, List.map_map]
    have hlen : ((((getGroupedPRs prs).closedPRs.map (fun e => (e.1, e.2.length)))).map
        Prod.snd).sum = (joinVals (getGroupedPRs prs).closedPRs).length := by
      rw [joinVals, List.length_flatten, List.map_map, List.map_map]
      rfl
    rw [List.map_map] at hlen
    rw [hlen]
    have hc := grouped_closed_perm prs ⟨[], []⟩
    rw [show joinVals (Grouped.mk [] []).closedPRs = [] from rfl, List.nil_append] at hc
    exact hc.length_eq

/-- C8 witness at a concrete two-PR list with one closed PR. -/
theorem C8_closed_counts_witness :
    ((getClosedPRCountsByUser [prAlice, prBob]).map Prod.snd).sum =
      ([prAlice, prBob].filter (fun pr => !decide (pr.state = "open"))).length :=
  (C8_closed_counts [prAlice, prBob]).2

/-! ## Claims C9 and C10: combined per-author file-type statistics -/

/-- Componentwise sum of two optional stat buckets (`none` means the bucket
is absent), the pointwise-sum the spec describes. -/
def combineOpt : Option Stat → Option Stat → Option Stat
  | none, b => b
  | some a, none => some a
  | some a, some b => some (addStat a b)

/-- The stat bucket a single PR's own `fileTypeStats` holds at `ext`. -/
def prStat (pr : PullRequest) (ext : String) : Option Stat :=
  match pr.fileTypeStats with
  | none => none
  | some m => lookupKey m ext

/-- Two-level read `m[u][ext]` of the per-author stats object. -/
def lookup2 (m : List (String × StatsMap)) (u e : String) : Option Stat :=
  match lookupKey m u with
  | none => none
  | some sm => lookupKey sm e

theorem combineOpt_none_right (a : Option Stat) : combineOpt a none = a := by
  cases a <;> rfl

theorem combineOpt_assoc (a b c : Option Stat) :
    combineOpt (combineOpt a b) c = combineOpt a (combineOpt b c) := by
  cases a <;> cases b <;> cases c <;> simp [combineOpt, addStat, Nat.add_assoc]

theorem zero_addStat (s : Stat) : addStat ⟨0, 0, 0⟩ s = s := by
  cases s
  simp [addStat]

theorem lookupKey_addFile (m : StatsMap) (f : ChangedFile) (e : String) :
    lookupKey (addFile m f) e = combineOpt (lookupKey m e) (lookupKey (addFile [] f) e) := by
  rw [addFile, addFile, lookupKey_upsert, lookupKey_upsert]
  by_cases he : e = extOf f.filename
  · rw [if_pos he, if_pos he, he]
    cases hm : lookupKey m (extOf f.filename) <;>
      simp [lookupKey, combineOpt, addStat]
  · rw [if_neg he, if_neg he]
    exact (combineOpt_none_right _).symm

theorem lookupKey_foldl_addFile (l : List ChangedFile) :
    ∀ (m : StatsMap) (e : String),
      lookupKey (l.foldl addFile m) e =
        combineOpt (lookupKey m e) (lookupKey (fileTypeStatsForPR l) e) := by
  induction l with
  | nil =>
      intro m e
      simp [fileTypeStatsForPR, lookupKey, combineOpt_none_right]
  | cons f rest ih =>
      intro m e
      rw [List.foldl_cons, ih (addFile m f) e,
        show fileTypeStatsForPR (f :: rest) = rest.foldl addFile (addFile [] f) from rfl,
        ih (addFile [] f) e, lookupKey_addFile, combineOpt_assoc]

theorem fileTypeStats_append (l1 l2 : List ChangedFile) (e : String) :
    lookupKey (fileTypeStatsForPR (l1 ++ l2)) e =
      combineOpt (lookupKey (fileTypeStatsForPR l1) e)
        (lookupKey (fileTypeStatsForPR l2) e) := by
  rw [fileTypeStatsForPR, List.foldl_append]
  exact lookupKey_foldl_addFile l2 (fileTypeStatsForPR l1) e

theorem lookupKey_mergeStatsInto (m : StatsMap) :
    ∀ (cur : StatsMap) (e : String), (m.map Prod.fst).Nodup →
      lookupKey (mergeStatsInto cur m) e =
        combineOpt (lookupKey cur e) (lookupKey m e) := by
  induction m with
  | nil =>
      intro cur e _
      simp [mergeStatsInto, lookupKey, combineOpt_none_right]
  | cons kv rest ih =>
      obtain ⟨k, s⟩ := kv
      intro cur e hnd
      rw [List.map_cons, List.nodup_cons] at hnd
      rw [show mergeStatsInto cur ((k, s) :: rest) =
            mergeStatsInto (upsert cur k ⟨0, 0, 0⟩ (fun t => addStat t s)) rest from rfl]
      rw [ih _ e hnd.2, lookupKey_upsert]
      by_cases he : e = k
      · have hrest : lookupKey rest e = none := by
          rw [lookupKey_eq_none_iff, he]
          exact hnd.1
        rw [if_pos he, hrest, combineOpt_none_right, he]
        rw [show lookupKey ((k, s) :: rest) k = some s from by simp [lookupKey]]
        cases hcur : lookupKey cur k <;> simp [combineOpt, zero_addStat]
      · have hne : ¬k = e := fun hh => he hh.symm
        rw [if_neg he, show lookupKey ((k, s) :: rest) e = lookupKey rest e from by
          simp [lookupKey, hne]]

theorem lookup2_none (m : List (String × StatsMap)) (u e : String)
    (h : lookupKey m u = none) : lookup2 m u e = none := by
  simp [lookup2, h]

theorem lookup2_some (m : List (String × StatsMap)) (u e : String) (sm : StatsMap)
    (h : lookupKey m u = some sm) : lookup2 m u e = lookupKey sm e := by
  simp [lookup2, h]

theorem lookupKey_addPRStats (stats : List (String × StatsMap)) (pr : PullRequest)
    (q : String) :
    lookupKey (addPRStats stats pr) q =
      if userKey pr = q then
        some (match pr.fileTypeStats with
              | none => (lookupKey stats q).getD []
              | some m => mergeStatsInto ((lookupKey stats q).getD []) m)
      else lookupKey stats q := by
  cases hft : pr.fileTypeStats with
  | none =>
      cases hlk : lookupKey stats (userKey pr) with
      | none =>
          have hres : addPRStats stats pr = stats ++ [(userKey pr, [])] := by
            simp [addPRStats, hlk, hft]
          rw [hres, lookupKey_append]
          by_cases hq : userKey pr = q
          · subst hq
            rw [hlk]
            simp [lookupKey]
          · rw [if_neg hq]
            cases hsq : lookupKey stats q <;> simp [lookupKey, hq]
      | some sm =>
          have hres : addPRStats stats pr = stats := by
            simp [addPRStats, hlk, hft]
          rw [hres]
          by_cases hq : userKey pr = q
          · subst hq
            rw [hlk, if_pos rfl]
            rfl
          · rw [if_neg hq]
  | some m =>
      cases hlk : lookupKey stats (userKey pr) with
      | none =>
          have hres : addPRStats stats pr =
              upsert (stats ++ [(userKey pr, [])]) (userKey pr) []
                (fun cur => mergeStatsInto cur m) := by
            simp [addPRStats, hlk, hft]
          rw [hres, lookupKey_upsert]
          by_cases hq : q = userKey pr
          · rw [if_pos hq, hq, hlk]
            rw [lookupKey_append, hlk]
            simp [lookupKey]
          · have hne : ¬userKey pr = q := fun hh => hq hh.symm
            rw [if_neg hq, if_neg hne, lookupKey_append]
            cases hsq : lookupKey stats q <;> simp [lookupKey, hne, hsq]
      | some sm =>
          have hres : addPRStats stats pr =
              upsert stats (userKey pr) [] (fun cur => mergeStatsInto cur m) := by
            simp [addPRStats, hlk, hft]
          rw [hres, lookupKey_upsert]
          by_cases hq : q = userKey pr
          · rw [if_pos hq, hq, hlk, if_pos rfl]
          · rw [if_neg hq, if_neg (fun hh => hq hh.symm)]

theorem lookup2_addPRStats (stats : List (String × StatsMap)) (pr : PullRequest)
    (hnd : ∀ m, pr.fileTypeStats = some m → (m.map Prod.fst).Nodup) (u e : String) :
    lookup2 (addPRStats stats pr) u e =
      if userKey pr = u then combineOpt (lookup2 stats u e) (prStat pr e)
      else lookup2 stats u e := by
  by_cases hu : userKey pr = u
  · subst hu
    rw [if_pos rfl]
    have hl := lookupKey_addPRStats stats pr (userKey pr)
    rw [if_pos rfl] at hl
    cases hft : pr.fileTypeStats with
    | none =>
        rw [hft] at hl
        rw [lookup2_some _ _ e _ hl]
        rw [show prStat pr e = none from by rw [prStat, hft], combineOpt_none_right]
        cases hlk : lookupKey stats (userKey pr) with
        | none =>
            rw [lookup2_none _ _ e hlk]
            rfl
        | some sm =>
            rw [lookup2_some _ _ e _ hlk]
            rfl
    | some m =>
        rw [hft] at hl
        rw [lookup2_some _ _ e _ hl,
          lookupKey_mergeStatsInto m _ e (hnd m hft),
          show prStat pr e = lookupKey m e from by rw [prStat, hft]]
        cases hlk : lookupKey stats (userKey pr) with
        | none =>
            rw [lookup2_none _ _ e hlk]
            rfl
        | some sm =>
            rw [lookup2_some _ _ e _ hlk]
            rfl
  · rw [if_neg hu]
    have hl := lookupKey_addPRStats stats pr u
    rw [if_neg hu] at hl
    cases hlk : lookupKey stats u with
    | none =>
        rw [hlk] at hl
        rw [lookup2_none _ _ e hl, lookup2_none _ _ e hlk]
    | some sm =>
        rw [hlk] at hl
        rw [lookup2_some _ _ e _ hl, lookup2_some _ _ e _ hlk]

theorem lookup2_foldl_addPRStats (prs : List PullRequest) :
    ∀ (stats : List (String × StatsMap)),
      (∀ pr ∈ prs, ∀ m, pr.fileTypeStats = some m → (m.map Prod.fst).Nodup) →
      ∀ (u e : String),
        lookup2 (prs.foldl addPRStats stats) u e =
          prs.foldl (fun acc pr =>
            if userKey pr = u then combineOpt acc (prStat pr e) else acc)
            (lookup2 stats u e) := by
  induction prs with
  | nil => intro stats _ u e; rfl
  | cons pr rest ih =>
      intro stats hnd u e
      rw [List.foldl_cons, List.foldl_cons,
        ih (addPRStats stats pr) (fun q hq => hnd q (List.mem_cons_of_mem _ hq)) u e,
        lookup2_addPRStats stats pr (hnd pr (List.mem_cons_self _ _)) u e]

/-- C9: file-type aggregation is additive: aggregating the concatenation of
two changed-file lists gives, at every extension, the componentwise sum of
the two separate aggregations; and `getCombinedFileTypeStatsByUser` holds,
for every author and extension, exactly the running componentwise sum of
that author's own per-PR `fileTypeStats` buckets (PR maps have JavaScript
object keys, i.e. no duplicate extension keys). -/
theorem C9_filetype_additivity :
    (∀ (l1 l2 : List ChangedFile) (e : String),
       lookupKey (fileTypeStatsForPR (l1 ++ l2)) e =
         combineOpt (lookupKey (fileTypeStatsForPR l1) e)
           (lookupKey (fileTypeStatsForPR l2) e)) ∧
    (∀ (prs : List PullRequest),
       (∀ pr ∈ prs, ∀ m, pr.fileTypeStats = some m → (m.map Prod.fst).Nodup) →
       ∀ (u e : String),
         lookup2 (getCombinedFileTypeStatsByUser prs) u e =
           prs.foldl (fun acc pr =>
             if userKey pr = u then combineOpt acc (prStat pr e) else acc) none) := by
  constructor
  · exact fileTypeStats_append
  · intro prs hnd u e
    exact lookup2_foldl_addPRStats prs [] hnd u e

/-- C9 witness: additivity at two concrete one-file lists, and the combined
per-author sum at a concrete one-PR list, hypotheses discharged. -/
theorem C9_filetype_additivity_witness :
    (lookupKey (fileTypeStatsForPR ([⟨"a.js", 3, 1⟩] ++ [⟨"b.js", 1, 2⟩])) "js" =
      combineOpt (lookupKey (fileTypeStatsForPR [⟨"a.js", 3, 1⟩]) "js")
        (lookupKey (fileTypeStatsForPR [⟨"b.js", 1, 2⟩]) "js")) ∧
    (lookup2 (getCombinedFileTypeStatsByUser [prAlice]) "alice" "js" =
      [prAlice].foldl (fun acc pr =>
        if userKey pr = "alice" then combineOpt acc (prStat pr "js") else acc) none) :=
  ⟨C9_filetype_additivity.1 [⟨"a.js", 3, 1⟩] [⟨"b.js", 1, 2⟩] "js",
   C9_filetype_additivity.2 [prAlice]
     (by intro pr hpr m hm; simp at hpr; subst hpr; simp [prAlice] at hm) "alice" "js"⟩

theorem keys_addPRStats (stats : List (String × StatsMap)) (pr : PullRequest) :
    (addPRStats stats pr).map Prod.fst =
      if userKey pr ∈ stats.map Prod.fst then stats.map Prod.fst
      else stats.map Prod.fst ++ [userKey pr] := by
  cases hlk : lookupKey stats (userKey pr) with
  | none =>
      have hmem : userKey pr ∉ stats.map Prod.fst := (lookupKey_eq_none_iff _ _).mp hlk
      rw [if_neg hmem]
      cases hft : pr.fileTypeStats with
      | none =>
          have hres : addPRStats stats pr = stats ++ [(userKey pr, [])] := by
            simp [addPRStats, hlk, hft]
          rw [hres]
          simp
      | some m =>
          have hres : addPRStats stats pr =
              upsert (stats ++ [(userKey pr, [])]) (userKey pr) []
                (fun cur => mergeStatsInto cur m) := by
            simp [addPRStats, hlk, hft]
          rw [hres, keys_upsert]
          rw [if_pos (by simp)]
          simp
  | some sm =>
      have hmem : userKey pr ∈ stats.map Prod.fst := by
        by_contra hc
        rw [← lookupKey_eq_none_iff] at hc
        rw [hlk] at hc
        cases hc
      rw [if_pos hmem]
      cases hft : pr.fileTypeStats with
      | none =>
          have hres : addPRStats stats pr = stats := by
            simp [addPRStats, hlk, hft]
          rw [hres]
      | some m =>
          have hres : addPRStats stats pr =
              upsert stats (userKey pr) [] (fun cur => mergeStatsInto cur m) := by
            simp [addPRStats, hlk, hft]
          rw [hres, keys_upsert, if_pos hmem]

theorem nodup_keys_addPRStats (stats : List (String × StatsMap)) (pr : PullRequest)
    (h : (stats.map Prod.fst).Nodup) : ((addPRStats stats pr).map Prod.fst).Nodup := by
  rw [keys_addPRStats]
  by_cases hmem : userKey pr ∈ stats.map Prod.fst
  · rw [if_pos hmem]
    exact h
  · rw [if_neg hmem]
    rw [List.nodup_append]
    refine ⟨h, List.nodup_singleton _, ?_⟩
    intro a ha hb
    rcases List.mem_singleton.mp hb with rfl
    exact hmem ha

theorem nodup_keys_foldl (prs : List PullRequest) :
    ∀ stats, (stats.map Prod.fst).Nodup →
      ((prs.foldl addPRStats stats).map Prod.fst).Nodup := by
  induction prs with
  | nil => intro stats h; simpa using h
  | cons pr rest ih =>
      intro stats h
      rw [List.foldl_cons]
      exact ih _ (nodup_keys_addPRStats _ _ h)

theorem mem_keys_foldl (prs : List PullRequest) :
    ∀ (stats : List (String × StatsMap)) (u : String),
      u ∈ (prs.foldl addPRStats stats).map Prod.fst ↔
        u ∈ stats.map Prod.fst ∨ ∃ pr ∈ prs, userKey pr = u := by
  induction prs with
  | nil => intro stats u; simp
  | cons pr rest ih =>
      intro stats u
      rw [List.foldl_cons, ih]
      constructor
      · rintro (hmem | h)
        · rw [keys_addPRStats] at hmem
          by_cases hm : userKey pr ∈ stats.map Prod.fst
          · rw [if_pos hm] at hmem
            exact Or.inl hmem
          · rw [if_neg hm] at hmem
            rcases List.mem_append.mp hmem with h1 | h1
            · exact Or.inl h1
            · rcases List.mem_singleton.mp h1 with rfl
              exact Or.inr ⟨pr, List.mem_cons_self _ _, rfl⟩
        · rcases h with ⟨q, hq, hqu⟩
          exact Or.inr ⟨q, List.mem_cons_of_mem _ hq, hqu⟩
      · rintro (hmem | ⟨q, hq, hqu⟩)
        · left
          rw [keys_addPRStats]
          by_cases hm : userKey pr ∈ stats.map Prod.fst
          · rw [if_pos hm]
            exact hmem
          · rw [if_neg hm]
            exact List.mem_append.mpr (Or.inl hmem)
        · rcases List.mem_cons.mp hq with rfl | hq2
          · left
            rw [keys_addPRStats]
            by_cases hm : userKey q ∈ stats.map Prod.fst
            · rw [if_pos hm]
              rw [← hqu]
              exact hm
            · rw [if_neg hm]
              exact List.mem_append.mpr (Or.inr (List.mem_singleton.mpr hqu.symm))
          · exact Or.inr ⟨q, hq2, hqu⟩

theorem lookup_stays_empty (prs : List PullRequest) :
    ∀ (stats : List (String × StatsMap)) (u : String),
      (∀ pr ∈ prs, userKey pr = u → pr.fileTypeStats = none) →
      lookupKey stats u = some [] →
      lookupKey (prs.foldl addPRStats stats) u = some [] := by
  induction prs with
  | nil => intro stats u _ h; simpa using h
  | cons pr rest ih =>
      intro stats u hnone h
      rw [List.foldl_cons]
      apply ih _ _ (fun q hq => hnone q (List.mem_cons_of_mem _ hq))
      rw [lookupKey_addPRStats]
      by_cases hu : userKey pr = u
      · rw [if_pos hu]
        have hft : pr.fileTypeStats = none := hnone pr (List.mem_cons_self _ _) hu
        rw [hft, h]
        rfl
      · rw [if_neg hu]
        exact h

theorem lookup_none_or_empty (prs : List PullRequest) :
    ∀ (stats : List (String × StatsMap)) (u : String),
      (∀ pr ∈ prs, userKey pr = u → pr.fileTypeStats = none) →
      lookupKey stats u = none →
      (lookupKey (prs.foldl addPRStats stats) u = none ∨
       lookupKey (prs.foldl addPRStats stats) u = some []) := by
  induction prs with
  | nil =>
      intro stats u _ h
      exact Or.inl (by simpa using h)
  | cons pr rest ih =>
      intro stats u hnone h
      rw [List.foldl_cons]
      by_cases hu : userKey pr = u
      · have hft : pr.fileTypeStats = none := hnone pr (List.mem_cons_self _ _) hu
        have hstep : lookupKey (addPRStats stats pr) u = some [] := by
          rw [lookupKey_addPRStats, if_pos hu, hft, h]
          rfl
        exact Or.inr
          (lookup_stays_empty rest _ u (fun q hq => hnone q (List.mem_cons_of_mem _ hq)) hstep)
      · have hstep : lookupKey (addPRStats stats pr) u = none := by
          rw [lookupKey_addPRStats, if_neg hu]
          exact h
        exact ih _ u (fun q hq => hnone q (List.mem_cons_of_mem _ hq)) hstep

/-- C10: the keys of `getCombinedFileTypeStatsByUser` are exactly the
distinct authors of the input PRs (`user.login`, `"unknown"` when absent),
with no duplicate keys; an author appears even when none of their PRs
carries a `fileTypeStats` field, mapped to the empty stats object. -/
theorem C10_combined_keys (prs : List PullRequest) :
    ((getCombinedFileTypeStatsByUser prs).map Prod.fst).Nodup ∧
    (∀ u, u ∈ (getCombinedFileTypeStatsByUser prs).map Prod.fst ↔
      ∃ pr ∈ prs, userKey pr = u) ∧
    (∀ u, (∃ pr ∈ prs, userKey pr = u) →
       (∀ pr ∈ prs, userKey pr = u → pr.fileTypeStats = none) →
       lookupKey (getCombinedFileTypeStatsByUser prs) u = some []) := by
  refine ⟨?_, ?_, ?_⟩
  · exact nodup_keys_foldl prs [] (by simp)
  · intro u
    have h := mem_keys_foldl prs [] u
    simpa using h
  · intro u hex hall
    rcases lookup_none_or_empty prs [] u hall rfl with hn | hs
    · exfalso
      have hmem : u ∈ (prs.foldl addPRStats []).map Prod.fst :=
        (mem_keys_foldl prs [] u).mpr (Or.inr hex)
      rw [lookupKey_eq_none_iff] at hn
      exact hn hmem
    · exact hs

/-- C10 witness: a single PR by alice with no `fileTypeStats` still yields
the key `"alice"`, mapped to the empty stats object. -/
theorem C10_combined_keys_witness :
    lookupKey (getCombinedFileTypeStatsByUser [prAlice]) "alice" = some [] :=
  (C10_combined_keys [prAlice]).2.2 "alice" ⟨prAlice, by simp, by decide⟩
    (by intro pr hpr; simp at hpr; subst hpr; intro _; rfl)
